import Mathlib

/-!
Verification of the `ittech` module data model (`src/data/module.rs`).

The file shallowly embeds the data model and the derived queries of the
Impulse Tracker module representation: the `Module` aggregate, the order
list, the flag set (`ModuleFlags::from_parts`), the fallible indexed
lookups (the `Get` impls), `Module::ordered_patterns` and
`Module::active_channels`.  Machine integers are embedded as `Nat` with
explicit `% 2 ^ w` where the source converts between widths.  Types that
the source file references but whose definitions live outside it
(`RangedU8`, the identifier types, `ActiveChannels`, `Pattern`,
`Instrument`, `Sample`, `Name`) are modelled from the specification and
carry a doc comment saying so.
-/

namespace Ittech

/-- Modelled from the spec: the song name is fixed-capacity text that may
contain embedded terminator bytes; we model it as its byte sequence.
(The `Name` type is referenced but not defined in `src/data/module.rs`.) -/
def Name : Type := List Nat

/-- Modelled from the spec: an identifier is a thin wrapper around one
unsigned byte, distinct per collection kind; conversion to the raw numeric
form is explicit (`as_u8`).  (`PatternId` is referenced but not defined in
`src/data/module.rs`.) -/
structure PatternId where
  raw : Fin 256
deriving DecidableEq

/-- Raw numeric value of a pattern identifier (Rust `PatternId::as_u8`). -/
def PatternId.as_u8 (i : PatternId) : Nat := i.raw.val

/-- Modelled from the spec: instrument identifier, one byte. -/
structure InstrumentId where
  raw : Fin 256
deriving DecidableEq

/-- Raw numeric value of an instrument identifier. -/
def InstrumentId.as_u8 (i : InstrumentId) : Nat := i.raw.val

/-- Modelled from the spec: sample identifier, one byte. -/
structure SampleId where
  raw : Fin 256
deriving DecidableEq

/-- Raw numeric value of a sample identifier. -/
def SampleId.as_u8 (i : SampleId) : Nat := i.raw.val

/-- Modelled from the spec: instrument headers are opaque to this core. -/
structure Instrument where
  tag : Nat
deriving DecidableEq

/-- Modelled from the spec: samples are opaque to this core. -/
structure Sample where
  tag : Nat
deriving DecidableEq

/-- Modelled from the spec: a bitset over the 64 channel slots tracking
which channels carry note data; we represent it by its underlying bit
pattern.  (`ActiveChannels` is referenced but not defined in
`src/data/module.rs`.) -/
structure ActiveChannels where
  bits : Nat
deriving DecidableEq

/-- The empty channel set (Rust `ActiveChannels::empty()`). -/
def ActiveChannels.empty : ActiveChannels := ⟨0⟩

/-- Modelled from the spec: the combination operator on channel sets is
bitwise union (Rust `BitOr for ActiveChannels`). -/
def ActiveChannels.bitor (a b : ActiveChannels) : ActiveChannels :=
  ⟨a.bits ||| b.bits⟩

/-- Modelled from the spec: a pattern is opaque to this core beyond its
channel-activity bitset. -/
structure Pattern where
  active_channels : ActiveChannels
deriving DecidableEq

/-- Order list entry (`enum Order` in `src/data/module.rs`). -/
inductive Order where
  | Index (idx : PatternId)
  | Separator
  | EndOfSong
deriving DecidableEq

/-- Modelled from the spec: `RangedU8<MIN, MAX>` is a range-checked byte
holding a value in the inclusive range `[MIN, MAX]`.  (Referenced but not
defined in `src/data/module.rs`.) -/
structure RangedU8 (MIN MAX : Nat) where
  val : Nat
  min_le : MIN ≤ val
  le_max : val ≤ MAX

/-- Modelled from the spec: constructing a bounded value fails (returns
`none`) when the raw value lies outside `[MIN, MAX]`; no clamping. -/
def RangedU8.new (MIN MAX v : Nat) : Option (RangedU8 MIN MAX) :=
  if h : MIN ≤ v ∧ v ≤ MAX then some ⟨v, h.1, h.2⟩ else none

/-- The flag set `ModuleFlags` (`bitflags!` in `src/data/module.rs`): a
32-bit capability set; we represent it by its underlying bit pattern. -/
structure ModuleFlags where
  bits : Nat
deriving DecidableEq

namespace ModuleFlags

/-- On = Stereo, Off = Mono. -/
def STEREO : ModuleFlags := ⟨1 <<< 0⟩

/-- If on, no mixing occurs if the volume at mixing time is 0. -/
def VOL_0_MIX_OPTIMIZATIONS : ModuleFlags := ⟨1 <<< 1⟩

/-- On = Use instruments, Off = Use samples. -/
def USE_INSTRUMENTS : ModuleFlags := ⟨1 <<< 2⟩

/-- On = Linear slides, Off = Amiga slides. -/
def LINEAR_SLIDES : ModuleFlags := ⟨1 <<< 3⟩

/-- On = Old Effects, Off = IT Effects. -/
def OLD_EFFECTS : ModuleFlags := ⟨1 <<< 4⟩

/-- On = Link Effect G memory with Effect E and F. -/
def LINK_G_E_EFFECTS : ModuleFlags := ⟨1 <<< 5⟩

/-- Use MIDI pitch controller, pitch depth given by PWD. -/
def USE_MIDI_PITCH : ModuleFlags := ⟨1 <<< 6⟩

/-- Request embedded MIDI configuration. -/
def REQUEST_MIDI_CONFIG_EMBEDDED : ModuleFlags := ⟨1 <<< 7⟩

/-- On = song message attached (originally `special` bit 0, shifted 16). -/
def MESSAGE_ATTACHED : ModuleFlags := ⟨1 <<< (0 + 16)⟩

/-- MIDI configuration embedded (originally `special` bit 3, shifted 16).
The constant name keeps the source's spelling. -/
def MIDI_CONIFG_EMBEDDED : ModuleFlags := ⟨1 <<< (3 + 16)⟩

/-- The union of all defined bits (`bitflags` generates this as `all`). -/
def all_bits : Nat :=
  STEREO.bits ||| VOL_0_MIX_OPTIMIZATIONS.bits ||| USE_INSTRUMENTS.bits |||
  LINEAR_SLIDES.bits ||| OLD_EFFECTS.bits ||| LINK_G_E_EFFECTS.bits |||
  USE_MIDI_PITCH.bits ||| REQUEST_MIDI_CONFIG_EMBEDDED.bits |||
  MESSAGE_ATTACHED.bits ||| MIDI_CONIFG_EMBEDDED.bits

/-- `bitflags`-generated `from_bits_truncate`: keep only defined bits. -/
def from_bits_truncate (bits : Nat) : ModuleFlags :=
  ⟨bits &&& all_bits⟩

/-- `ModuleFlags::from_parts`: the two raw 16-bit words are merged into a
32-bit pattern (special shifted left by 16) and truncated to the defined
bits.  The `% 2 ^ 16` models the `u16` type of the arguments. -/
def from_parts (flags special : Nat) : ModuleFlags :=
  from_bits_truncate ((flags % 2 ^ 16) ||| ((special % 2 ^ 16) <<< 16))

end ModuleFlags

/-- The `Module` aggregate root (`struct Module` in `src/data/module.rs`).
`u8`/`u16` scalars are embedded as `Nat`; the two per-channel arrays
`[u8; 64]` are functions out of `Fin 64`. -/
structure Module where
  name : Name
  message : String
  highlight : Nat × Nat
  made_with_version : Nat
  compatible_with_version : Nat
  flags : ModuleFlags
  global_volume : RangedU8 0 128
  sample_volume : RangedU8 0 128
  speed : RangedU8 1 255
  tempo : RangedU8 31 255
  pan_separation : RangedU8 0 128
  pitch_wheel_depth : Nat
  init_channel_panning : Fin 64 → Nat
  init_channel_volume : Fin 64 → Nat
  orders : List Order
  instruments : List Instrument
  samples : List Sample
  patterns : List Pattern

/-- The `Get` capability (`trait Get` used by `src/data/module.rs`):
fallible lookup of an element by identifier. -/
class Get (σ : Type) (ι : Type) (γ : outParam Type) where
  get : σ → ι → Option γ

/-- `impl Get<SampleId> for Module`:
`self.samples.as_slice().get(usize::from(index.as_u8()))`. -/
instance : Get Module SampleId Sample where
  get m index := m.samples.get? index.as_u8

/-- `impl Get<InstrumentId> for Module`. -/
instance : Get Module InstrumentId Instrument where
  get m index := m.instruments.get? index.as_u8

/-- `impl Get<PatternId> for Module`. -/
instance : Get Module PatternId Pattern where
  get m index := m.patterns.get? index.as_u8

/-- The closure inside `Module::ordered_patterns`, named for reuse in
proofs: resolve an `Index` entry through the fallible lookup, map
`Separator` and `EndOfSong` to nothing. -/
def Module.resolve_order (m : Module) : Order → Option Pattern
  | Order.Index idx => Get.get m idx
  | _ => none

/-- `Module::ordered_patterns`: walk `orders` in insertion order, resolve
each `Index` entry through the fallible lookup, skip everything else.
Rust's lazy iterator is embedded as the list of the patterns it yields. -/
def Module.ordered_patterns (m : Module) : List Pattern :=
  m.orders.filterMap m.resolve_order

/-- `Module::active_channels`: fold bitwise union over the channel sets of
the ordered patterns, starting from the empty set. -/
def Module.active_channels (m : Module) : ActiveChannels :=
  (m.ordered_patterns.map Pattern.active_channels).foldl
    ActiveChannels.bitor ActiveChannels.empty

/-- Union of the channel sets of every pattern stored in the patterns
collection, whether or not the orders list reaches it.  This is the
comparison bound for claim C10; it is not a function of the source. -/
def Module.all_patterns_union (m : Module) : ActiveChannels :=
  (m.patterns.map Pattern.active_channels).foldl
    ActiveChannels.bitor ActiveChannels.empty

/-! ### Concrete values used by witnesses -/

/-- A pattern whose channel set has exactly channel 0 active. -/
def examplePattern : Pattern := ⟨⟨1⟩⟩

/-- Pattern identifier 0. -/
def pid0 : PatternId := ⟨0⟩

/-- A concrete module (one stored pattern, no orders) used to instantiate
theorems with hypotheses. -/
def exampleModule : Module where
  name := []
  message := ""
  highlight := (4, 16)
  made_with_version := 0
  compatible_with_version := 0
  flags := ModuleFlags.from_parts 0 0
  global_volume := ⟨128, by decide, by decide⟩
  sample_volume := ⟨48, by decide, by decide⟩
  speed := ⟨6, by decide, by decide⟩
  tempo := ⟨125, by decide, by decide⟩
  pan_separation := ⟨128, by decide, by decide⟩
  pitch_wheel_depth := 0
  init_channel_panning := fun _ => 32
  init_channel_volume := fun _ => 64
  orders := []
  instruments := []
  samples := []
  patterns := [examplePattern]

/-- The example module with an empty patterns collection. -/
def emptyPatternsModule : Module := { exampleModule with patterns := [] }

/-- The example module with orders `[Index 0, Separator]`. -/
def ordModule : Module :=
  { exampleModule with orders := [Order.Index pid0, Order.Separator] }

/-- The example module with the single order `Index 0`. -/
def oneOrderModule : Module :=
  { exampleModule with orders := [Order.Index pid0] }

/-! ### Helper lemmas -/

/-- A number below `2 ^ k` has no bit at or above position `k`. -/
lemma testBit_eq_false_of_lt_pow {x k i : Nat} (hx : x < 2 ^ k) (hk : k ≤ i) :
    x.testBit i = false :=
  Nat.testBit_lt_two_pow (lt_of_lt_of_le hx (Nat.pow_le_pow_right (by decide) hk))

/-- Fallible list indexing, phrased with an explicit in-bounds test. -/
lemma get?_dite {α : Type} (l : List α) (n : Nat) :
    l.get? n = if h : n < l.length then some (l.get ⟨n, h⟩) else none := by
  by_cases h : n < l.length
  · rw [dif_pos h]
    exact List.get?_eq_get h
  · rw [dif_neg h]
    exact List.get?_len_le (Nat.le_of_not_lt h)

/-- Resolving a `Separator` entry yields nothing. -/
@[simp] lemma resolve_order_separator (m : Module) :
    m.resolve_order Order.Separator = none := rfl

/-- Resolving an `EndOfSong` entry yields nothing. -/
@[simp] lemma resolve_order_end_of_song (m : Module) :
    m.resolve_order Order.EndOfSong = none := rfl

/-- Resolving an `Index` entry performs the fallible pattern lookup. -/
lemma resolve_order_index (m : Module) (idx : PatternId) :
    m.resolve_order (Order.Index idx) = Get.get m idx := rfl

/-- Replacing the orders list does not change how entries resolve, because
resolution only reads the patterns collection. -/
lemma resolve_order_update (m : Module) (l : List Order) (ord : Order) :
    ({ m with orders := l } : Module).resolve_order ord = m.resolve_order ord := by
  cases ord <;> rfl

/-- `ordered_patterns` of a module with replaced orders list is the
traversal of that list under the original module's resolver. -/
lemma ordered_patterns_update (m : Module) (l : List Order) :
    ({ m with orders := l } : Module).ordered_patterns
      = l.filterMap m.resolve_order := by
  show l.filterMap ({ m with orders := l } : Module).resolve_order
      = l.filterMap m.resolve_order
  exact congrArg (fun f => l.filterMap f) (funext (resolve_order_update m l))

/-- Bit `i` of a union fold is set iff it is set in the seed or in some
element of the list. -/
lemma foldl_bitor_testBit (l : List ActiveChannels) (a : ActiveChannels) (i : Nat) :
    (l.foldl ActiveChannels.bitor a).bits.testBit i
      = (a.bits.testBit i || l.any fun x => x.bits.testBit i) := by
  induction l generalizing a with
  | nil => simp
  | cons x xs ih =>
      rw [List.foldl_cons, ih]
      simp [ActiveChannels.bitor, Nat.testBit_or, Bool.or_assoc]

/-- Testing a bit distributes over mapping patterns to their channel sets. -/
lemma any_map_pattern_testBit (l : List Pattern) (i : Nat) :
    ((l.map Pattern.active_channels).any fun x => x.bits.testBit i)
      = l.any fun p => p.active_channels.bits.testBit i := by
  induction l with
  | nil => rfl
  | cons x xs ih => simp [List.any_cons, ih]

/-- Bit `i` of `active_channels` is set iff some ordered pattern has it. -/
lemma active_channels_testBit (m : Module) (i : Nat) :
    m.active_channels.bits.testBit i
      = m.ordered_patterns.any fun p => p.active_channels.bits.testBit i := by
  unfold Module.active_channels
  rw [foldl_bitor_testBit]
  simp only [ActiveChannels.empty, Nat.zero_testBit, Bool.false_or]
  exact any_map_pattern_testBit _ _

/-- Channel sets with equal bit patterns are equal. -/
lemma ActiveChannels.ext_bits {a b : ActiveChannels} (h : a.bits = b.bits) :
    a = b := by
  cases a
  cases b
  cases h
  rfl

/-- `List.any` is invariant under permutation. -/
lemma perm_any_eq {α : Type} {l₁ l₂ : List α} (h : l₁.Perm l₂) (p : α → Bool) :
    l₁.any p = l₂.any p := by
  cases h1 : l₁.any p <;> cases h2 : l₂.any p <;> try rfl
  · obtain ⟨x, hx, hpx⟩ := List.any_eq_true.mp h2
    have hc : l₁.any p = true := List.any_eq_true.mpr ⟨x, h.mem_iff.mpr hx, hpx⟩
    rw [h1] at hc
    cases hc
  · obtain ⟨x, hx, hpx⟩ := List.any_eq_true.mp h1
    have hc : l₂.any p = true := List.any_eq_true.mpr ⟨x, h.mem_iff.mp hx, hpx⟩
    rw [h2] at hc
    cases hc

/-! ### Flag-set construction (claims C4, C5, C6) -/

/-- C4: `ModuleFlags::from_parts(flags, special)` places the special word's
bits at offset 16 above the general flags word and masks to the recognized
bits; `from_parts(0b0000_0001, 0b0000_0001)` sets exactly `STEREO` (bit 0)
and `MESSAGE_ATTACHED` (bit 16) and no other bit. -/
theorem C4_from_parts_stereo_message :
    ModuleFlags.from_parts 1 1
      = ⟨ModuleFlags.STEREO.bits ||| ModuleFlags.MESSAGE_ATTACHED.bits⟩
  ∧ ∀ i, (ModuleFlags.from_parts 1 1).bits.testBit i = true ↔ (i = 0 ∨ i = 16) := by
  refine ⟨by decide, fun i => ?_⟩
  by_cases hi : i < 17
  · interval_cases i <;> decide
  · have hbits : (ModuleFlags.from_parts 1 1).bits = 65537 := by decide
    have hb : Nat.testBit 65537 i = false :=
      testBit_eq_false_of_lt_pow (k := 17) (by decide) (by omega)
    rw [hbits, hb]
    simp only [Bool.false_eq_true, false_iff]
    omega

/-- C5: `ModuleFlags::from_parts(0xFFFF, 0xFFFF)` yields exactly the
documented bits — the eight general-flag bits 0–7, `MESSAGE_ATTACHED`
(bit 16) and the MIDI-config-embedded bit (19); no reserved bit survives,
and truncation is silent (the constructor is total, not fallible). -/
theorem C5_from_parts_truncates_to_documented :
    ModuleFlags.from_parts 65535 65535 = ⟨ModuleFlags.all_bits⟩
  ∧ ∀ i, (ModuleFlags.from_parts 65535 65535).bits.testBit i = true
      ↔ (i ≤ 7 ∨ i = 16 ∨ i = 19) := by
  refine ⟨by decide, fun i => ?_⟩
  by_cases hi : i < 20
  · interval_cases i <;> decide
  · have hbits : (ModuleFlags.from_parts 65535 65535).bits = 590079 := by decide
    have hb : Nat.testBit 590079 i = false :=
      testBit_eq_false_of_lt_pow (k := 20) (by decide) (by omega)
    rw [hbits, hb]
    simp only [Bool.false_eq_true, false_iff]
    omega

/-- C6 counterexample: the claim says a bit set in the raw input outside
the defined set is still present in the constructed value.  At input
`(flags, special) = (0b1_0000_0000, 0)` bit 8 is set in the input but
absent from `from_parts`'s result, refuting the claim. -/
theorem C6_counterexample :
    Nat.testBit 256 8 = true
  ∧ (ModuleFlags.from_parts 256 0).bits.testBit 8 = false := by
  decide

/-- C6 (amended): unknown (undefined) bits present in the raw input words
are discarded, not preserved: for every pair of raw words, every bit
outside the defined set (bits 0–7, 16, 19) is absent from the constructed
`ModuleFlags` value. -/
theorem C6_unknown_bits_dropped (flags special i : Nat)
    (h : ¬ (i ≤ 7 ∨ i = 16 ∨ i = 19)) :
    (ModuleFlags.from_parts flags special).bits.testBit i = false := by
  show ((((flags % 2 ^ 16) ||| ((special % 2 ^ 16) <<< 16)) &&&
      ModuleFlags.all_bits)).testBit i = false
  rw [Nat.testBit_and]
  have hmask : (ModuleFlags.all_bits).testBit i = false := by
    by_cases hi : i < 20
    · interval_cases i <;> first | decide | exact absurd (by omega) h
    · exact testBit_eq_false_of_lt_pow (k := 20) (by decide) (by omega)
  rw [hmask, Bool.and_false]

/-- C6 witness: at `(flags, special) = (256, 0)` and bit 8, the amended
theorem applies and the bit is absent. -/
theorem C6_unknown_bits_dropped_witness :
    (ModuleFlags.from_parts 256 0).bits.testBit 8 = false :=
  C6_unknown_bits_dropped 256 0 8 (by decide)

/-! ### Ordered pattern traversal (claims C1, C9) -/

/-- C1: `ordered_patterns` walks the orders list in insertion order: an
empty orders list yields the empty sequence, `Separator` and `EndOfSong`
entries are skipped entirely (`EndOfSong` does not terminate iteration),
each `Index` entry yields exactly its resolved pattern, and over
`[Separator, Index 0, EndOfSong, Index 0]` with a valid pattern 0 the
pattern is yielded twice. -/
theorem C1_ordered_patterns_traversal (m : Module) :
    (({ m with orders := [] } : Module).ordered_patterns = [])
  ∧ (∀ rest, ({ m with orders := Order.Separator :: rest } : Module).ordered_patterns
      = ({ m with orders := rest } : Module).ordered_patterns)
  ∧ (∀ rest, ({ m with orders := Order.EndOfSong :: rest } : Module).ordered_patterns
      = ({ m with orders := rest } : Module).ordered_patterns)
  ∧ (∀ idx rest p, Get.get m idx = some p →
      ({ m with orders := Order.Index idx :: rest } : Module).ordered_patterns
        = p :: ({ m with orders := rest } : Module).ordered_patterns)
  ∧ (∀ p, m.patterns = [p] →
      ({ m with orders :=
          [Order.Separator, Order.Index pid0, Order.EndOfSong, Order.Index pid0] }
        : Module).ordered_patterns = [p, p]) := by
  refine ⟨rfl, fun rest => ?_, fun rest => ?_, fun idx rest p h => ?_, fun p h => ?_⟩
  · rw [ordered_patterns_update, ordered_patterns_update]
    simp [List.filterMap_cons]
  · rw [ordered_patterns_update, ordered_patterns_update]
    simp [List.filterMap_cons]
  · rw [ordered_patterns_update, ordered_patterns_update]
    simp [List.filterMap_cons, resolve_order_index, h]
  · have hget : Get.get m pid0 = some p := by
      show m.patterns.get? pid0.as_u8 = some p
      rw [h]
      rfl
    rw [ordered_patterns_update]
    simp [List.filterMap_cons, resolve_order_index, hget]

/-- C1 witness: over the example module (whose patterns collection is the
one-element list) the four-entry orders list yields the pattern twice. -/
theorem C1_ordered_patterns_traversal_witness :
    ({ exampleModule with orders :=
        [Order.Separator, Order.Index pid0, Order.EndOfSong, Order.Index pid0] }
      : Module).ordered_patterns = [examplePattern, examplePattern] :=
  (C1_ordered_patterns_traversal exampleModule).2.2.2.2 examplePattern rfl

/-- C9: an `Index` entry whose identifier has no matching pattern (raw
value not below the patterns collection's length) contributes nothing to
`ordered_patterns`: the entry is skipped and iteration continues; the
function is total, so no panic can occur. -/
theorem C9_invalid_index_skipped (m : Module) (idx : PatternId) (rest : List Order)
    (h : m.patterns.length ≤ idx.as_u8) :
    ({ m with orders := Order.Index idx :: rest } : Module).ordered_patterns
      = ({ m with orders := rest } : Module).ordered_patterns := by
  have hget : Get.get m idx = none := by
    show m.patterns.get? idx.as_u8 = none
    exact List.get?_len_le h
  rw [ordered_patterns_update, ordered_patterns_update]
  simp [List.filterMap_cons, resolve_order_index, hget]

/-- C9 witness: with an empty patterns collection, the order `Index 0`
resolves to nothing and is skipped. -/
theorem C9_invalid_index_skipped_witness :
    ({ emptyPatternsModule with orders := [Order.Index pid0] } : Module).ordered_patterns
      = ({ emptyPatternsModule with orders := ([] : List Order) } : Module).ordered_patterns :=
  C9_invalid_index_skipped emptyPatternsModule pid0 [] (by decide)

/-! ### Indexed lookup (claim C3) -/

/-- C3: for each identifier kind, the fallible lookup returns some of the
element at the identifier's raw position exactly when that raw value is
below the matching collection's length, and none otherwise; the lookup is
a total function (no panic, no out-of-bounds access). -/
theorem C3_lookup_in_bounds (m : Module) :
    (∀ id : PatternId, Get.get m id =
        if h : id.as_u8 < m.patterns.length then some (m.patterns.get ⟨id.as_u8, h⟩)
        else none)
  ∧ (∀ id : InstrumentId, Get.get m id =
        if h : id.as_u8 < m.instruments.length then some (m.instruments.get ⟨id.as_u8, h⟩)
        else none)
  ∧ (∀ id : SampleId, Get.get m id =
        if h : id.as_u8 < m.samples.length then some (m.samples.get ⟨id.as_u8, h⟩)
        else none) :=
  ⟨fun id => get?_dite m.patterns id.as_u8,
   fun id => get?_dite m.instruments id.as_u8,
   fun id => get?_dite m.samples id.as_u8⟩

/-- C3 witness: on the example module, looking pattern 0 up succeeds with
the stored pattern. -/
theorem C3_lookup_in_bounds_witness :
    Get.get exampleModule pid0 = some examplePattern := by
  rw [(C3_lookup_in_bounds exampleModule).1 pid0]
  rfl

/-! ### Bounded numeric construction (claim C7) -/

/-- C7: constructing a bounded byte succeeds exactly when the raw value
lies in the declared inclusive range, a successful construction
round-trips to the same raw value, and every module's bounded header
fields are in range for the declared per-field ranges (global volume,
sample volume and pan separation in `[0,128]`, speed in `[1,255]`, tempo
in `[31,255]`). -/
theorem C7_ranged_construction (MIN MAX v : Nat) :
    ((RangedU8.new MIN MAX v).isSome = true ↔ (MIN ≤ v ∧ v ≤ MAX))
  ∧ (∀ r : RangedU8 MIN MAX, RangedU8.new MIN MAX v = some r → r.val = v)
  ∧ (∀ m : Module,
      m.global_volume.val ≤ 128 ∧ m.sample_volume.val ≤ 128
    ∧ 1 ≤ m.speed.val ∧ m.speed.val ≤ 255
    ∧ 31 ≤ m.tempo.val ∧ m.tempo.val ≤ 255
    ∧ m.pan_separation.val ≤ 128) := by
  refine ⟨?_, fun r hr => ?_, fun m =>
    ⟨m.global_volume.le_max, m.sample_volume.le_max, m.speed.min_le, m.speed.le_max,
     m.tempo.min_le, m.tempo.le_max, m.pan_separation.le_max⟩⟩
  · unfold RangedU8.new
    split
    · rename_i h
      simp only [Option.isSome_some, true_iff]
      exact h
    · rename_i h
      simp only [Option.isSome_none, Bool.false_eq_true, false_iff]
      exact h
  · unfold RangedU8.new at hr
    split at hr
    · rw [Option.some.injEq] at hr
      subst hr
      rfl
    · cases hr

/-- C7 witness: tempo value 125 is accepted by range `[31,255]` and
round-trips. -/
theorem C7_ranged_construction_witness :
    (⟨125, by decide, by decide⟩ : RangedU8 31 255).val = 125 :=
  (C7_ranged_construction 31 255 125).2.1 ⟨125, by decide, by decide⟩ rfl

/-! ### Active-channel aggregation (claims C2, C8, C10) -/

/-- C2: `active_channels` is the bitwise union, seeded with the empty
channel set, of the channel sets of exactly the patterns reached by
ordered traversal: a channel bit is set in the result iff some ordered
pattern sets it; and a module whose only order is `Separator` gets the
empty channel set even with a non-empty patterns collection. -/
theorem C2_active_channels_union (m : Module) :
    (∀ i, m.active_channels.bits.testBit i = true
        ↔ ∃ p ∈ m.ordered_patterns, p.active_channels.bits.testBit i = true)
  ∧ (m.orders = [Order.Separator] → m.active_channels = ActiveChannels.empty) := by
  constructor
  · intro i
    rw [active_channels_testBit]
    exact List.any_eq_true
  · intro h
    have hop : m.ordered_patterns = [] := by
      unfold Module.ordered_patterns
      rw [h]
      rfl
    unfold Module.active_channels
    rw [hop]
    rfl

/-- C2 witness: the example module (non-empty patterns collection) with
the single order `Separator` has no active channels. -/
theorem C2_active_channels_union_witness :
    ({ exampleModule with orders := [Order.Separator] } : Module).active_channels
      = ActiveChannels.empty :=
  (C2_active_channels_union _).2 rfl

/-- C8: `active_channels` is order-independent: replacing the orders list
by any permutation of it (same multiset of entries, separators and
end-of-song markers wherever they land) leaves the resulting bitset
unchanged. -/
theorem C8_active_channels_perm (m : Module) (l : List Order)
    (h : m.orders.Perm l) :
    ({ m with orders := l } : Module).active_channels = m.active_channels := by
  have hperm : (({ m with orders := l } : Module).ordered_patterns).Perm
      m.ordered_patterns := by
    rw [ordered_patterns_update]
    exact (h.symm).filterMap m.resolve_order
  apply ActiveChannels.ext_bits
  apply Nat.eq_of_testBit_eq
  intro i
  rw [active_channels_testBit, active_channels_testBit]
  exact perm_any_eq hperm _

/-- C8 witness: swapping `[Index 0, Separator]` to `[Separator, Index 0]`
leaves `active_channels` unchanged. -/
theorem C8_active_channels_perm_witness :
    ({ ordModule with orders := [Order.Separator, Order.Index pid0] }
      : Module).active_channels = ordModule.active_channels :=
  C8_active_channels_perm ordModule [Order.Separator, Order.Index pid0] (by decide)

/-- C10: every pattern yielded by ordered traversal is an element of the
patterns collection, so `active_channels` is a subset (bitwise) of the
union of the channel sets of all stored patterns: it never reports a
channel no stored pattern uses. -/
theorem C10_active_channels_subset (m : Module) :
    (∀ p, p ∈ m.ordered_patterns → p ∈ m.patterns)
  ∧ (∀ i, m.active_channels.bits.testBit i = true
      → m.all_patterns_union.bits.testBit i = true) := by
  have hmem : ∀ p, p ∈ m.ordered_patterns → p ∈ m.patterns := by
    intro p hp
    unfold Module.ordered_patterns at hp
    rw [List.mem_filterMap] at hp
    obtain ⟨ord, _, hres⟩ := hp
    cases ord with
    | Index idx => exact List.get?_mem hres
    | Separator => cases hres
    | EndOfSong => cases hres
  refine ⟨hmem, fun i hi => ?_⟩
  rw [active_channels_testBit] at hi
  obtain ⟨p, hp, hbit⟩ := List.any_eq_true.mp hi
  unfold Module.all_patterns_union
  rw [foldl_bitor_testBit]
  refine Bool.or_eq_true_iff.mpr (Or.inr ?_)
  rw [any_map_pattern_testBit]
  exact List.any_eq_true.mpr ⟨p, hmem p hp, hbit⟩

/-- C10 witness: with the single order `Index 0`, channel 0 is active and
is indeed covered by the union over all stored patterns. -/
theorem C10_active_channels_subset_witness :
    oneOrderModule.all_patterns_union.bits.testBit 0 = true :=
  (C10_active_channels_subset oneOrderModule).2 0 (by decide)

end Ittech
